import Mathlib

/-!
Verification of the callback-plugin registration and dispatch mechanism of
`korppluginlib._callbackplugin` (Korp backend).

The embedding models:
* the callback registry `KorpCallbackPlugin._callbacks`, a `defaultdict(list)`
  mapping hook-point names to lists of `(callback, applies_to)` pairs, as an
  association list `Registry`;
* callback registration performed by `KorpCallbackPluginMetaclass.__init__`
  when a plugin subclass is defined, as `registerClass`;
* the three dispatch strategies `KorpCallbackPluginCaller.call`,
  `call_collect` and `call_chain`;
* the per-request caller directory `KorpCallbackPluginCaller._instances`
  together with `__init__`, `get_instance` and `cleanup`.

Python callbacks may raise; a callback invocation is therefore modelled as
returning `Except E (Option V)`, where `Except.error` models a raised
exception and the `Option` models a possibly-`None` return value.  Since the
same registered callback object is invoked with different argument lists by
the different dispatch strategies, the registry stores opaque callback
objects of a type `γ` and each dispatch function receives the invocation
function (application to the actual arguments) as a parameter.  Dispatch
functions return the (possibly updated) registry alongside their result so
that the absence of registry mutation by dispatch is expressible.
-/

namespace Korp

/-- A registered callback entry: the pair `(callback, applies_to)` appended by
`KorpCallbackPluginMetaclass.__init__`. -/
abbrev CbEntry (γ Req : Type) := γ × (Req → Bool)

/-- The callback registry `KorpCallbackPlugin._callbacks`: a dict from
hook-point names to lists of entries, modelled as an association list. -/
abbrev Registry (γ Req : Type) := List (String × List (CbEntry γ Req))

/-- Python `dict.get(key, [])`: the first binding of `k`, or `[]` when `k` is
not a key.  This is the lookup used by the dispatch methods
(`KorpCallbackPlugin._callbacks.get(hook_point, [])`). -/
def dictGet {γ Req : Type} : Registry γ Req → String → List (CbEntry γ Req)
  | [], _ => []
  | (k', es) :: rest, k => if k' = k then es else dictGet rest k

/-- `dict.get` as an operation on the registry state: it returns the value and
leaves the dict unchanged (unlike indexing a `defaultdict`, which would
insert a fresh empty entry for a missing key). -/
def dictGetSt {γ Req : Type} (reg : Registry γ Req) (k : String) :
    List (CbEntry γ Req) × Registry γ Req :=
  (dictGet reg k, reg)

/-- `defaultdict` indexing followed by `list.append`
(`cls._callbacks[name].append(entry)`): append `e` to the list bound to `k`,
creating the binding when `k` is not yet a key. -/
def dictAppend {γ Req : Type} :
    Registry γ Req → String → CbEntry γ Req → Registry γ Req
  | [], k, e => [(k, [e])]
  | (k', es) :: rest, k, e =>
    if k' = k then (k', es ++ [e]) :: rest else (k', es) :: dictAppend rest k e

/-- Python `name[0].islower()` (with the empty name counting as not
lowercase; `dir()` never yields an empty name). -/
def startsLower (s : String) : Bool :=
  match s.data with
  | [] => false
  | c :: _ => c.isLower

/-- An attribute of the plugin singleton instance as seen by the registration
loop over `dir(inst)`: its name, whether `callable(attr)` holds, and the
attribute value itself (the bound method for callables). -/
structure PyAttr (γ : Type) where
  name : String
  isCallable : Bool
  value : γ

/-- The registration condition of `KorpCallbackPluginMetaclass.__init__`:
`name[0].islower() and callable(attr) and name not in cls._base_methods`. -/
def qualifies {γ : Type} (baseMethods : List String) (a : PyAttr γ) : Bool :=
  startsLower a.name && a.isCallable && !(baseMethods.contains a.name)

/-- The subclass branch of `KorpCallbackPluginMetaclass.__init__`: iterate
over the attributes of the singleton instance (in `dir(inst)` order) and
append `(attr, cls.applies_to)` to `cls._callbacks[name]` for each qualifying
attribute. -/
def registerClass {γ Req : Type} (baseMethods : List String)
    (appliesTo : Req → Bool) (attrs : List (PyAttr γ)) (reg : Registry γ Req) :
    Registry γ Req :=
  attrs.foldl
    (fun r a =>
      if qualifies baseMethods a then dictAppend r a.name (a.value, appliesTo)
      else r)
    reg

/-- The loop of `KorpCallbackPluginCaller.call`: invoke each applicable
callback in order, discarding return values; a raised exception propagates
immediately. -/
def callRun {γ Req V E : Type} (invoke : γ → Req → Except E (Option V))
    (req : Req) : List (CbEntry γ Req) → Except E Unit
  | [] => Except.ok ()
  | (cb, appliesTo) :: rest =>
    if appliesTo req then
      match invoke cb req with
      | Except.error e => Except.error e
      | Except.ok _ => callRun invoke req rest
    else callRun invoke req rest

/-- The loop of `KorpCallbackPluginCaller.call_collect`: invoke each
applicable callback in order, appending each non-`None` return value to
`result`; a raised exception propagates immediately. -/
def collectRun {γ Req V E : Type} (invoke : γ → Req → Except E (Option V))
    (req : Req) : List (CbEntry γ Req) → List V → Except E (List V)
  | [], result => Except.ok result
  | (cb, appliesTo) :: rest, result =>
    if appliesTo req then
      match invoke cb req with
      | Except.error e => Except.error e
      | Except.ok none => collectRun invoke req rest result
      | Except.ok (some v) => collectRun invoke req rest (result ++ [v])
    else collectRun invoke req rest result

/-- The loop of `KorpCallbackPluginCaller.call_chain`: invoke each applicable
callback with the running value `arg1`; a non-`None` return value becomes the
new running value, a `None` return leaves it unchanged; a raised exception
propagates immediately. -/
def chainRun {γ Req V E : Type} (invoke : γ → V → Req → Except E (Option V))
    (req : Req) : V → List (CbEntry γ Req) → Except E V
  | arg1, [] => Except.ok arg1
  | arg1, (cb, appliesTo) :: rest =>
    if appliesTo req then
      match invoke cb arg1 req with
      | Except.error e => Except.error e
      | Except.ok none => chainRun invoke req arg1 rest
      | Except.ok (some v) => chainRun invoke req v rest
    else chainRun invoke req arg1 rest

/-- `KorpCallbackPluginCaller.call`: look up the hook point's entries with
`dict.get` and run the fire-and-forget loop.  The second component is the
registry as left behind by the dispatch. -/
def call {γ Req V E : Type} (invoke : γ → Req → Except E (Option V))
    (reg : Registry γ Req) (hook_point : String) (req : Req) :
    Except E Unit × Registry γ Req :=
  let s := dictGetSt reg hook_point
  (callRun invoke req s.1, s.2)

/-- `KorpCallbackPluginCaller.call_collect`: look up the hook point's entries
with `dict.get` and run the collecting loop starting from `result = []`.  The
second component is the registry as left behind by the dispatch. -/
def call_collect {γ Req V E : Type} (invoke : γ → Req → Except E (Option V))
    (reg : Registry γ Req) (hook_point : String) (req : Req) :
    Except E (List V) × Registry γ Req :=
  let s := dictGetSt reg hook_point
  (collectRun invoke req s.1 [], s.2)

/-- `KorpCallbackPluginCaller.call_chain`: look up the hook point's entries
with `dict.get` and thread `arg1` through the applicable callbacks.  The
second component is the registry as left behind by the dispatch. -/
def call_chain {γ Req V E : Type} (invoke : γ → V → Req → Except E (Option V))
    (reg : Registry γ Req) (hook_point : String) (req : Req) (arg1 : V) :
    Except E V × Registry γ Req :=
  let s := dictGetSt reg hook_point
  (chainRun invoke req arg1 s.1, s.2)

/-- The caller directory `KorpCallbackPluginCaller._instances`, mapping the
identity `id(request)` of a request object to its caller; modelled as a
partial map, with `none` standing for an absent key. -/
def Directory (γ : Type) := Nat → Option γ

/-- The registration performed by `KorpCallbackPluginCaller.__init__`:
`self._instances[id(self._request)] = self`.  Dict assignment never raises
and overwrites any previous binding of the key. -/
def caller_init {γ : Type} (d : Directory γ) (rid : Nat) (c : γ) :
    Directory γ :=
  fun k => if k = rid then some c else d k

/-- `KorpCallbackPluginCaller.get_instance`: `cls._instances[id(request_obj)]`.
Returns `none` exactly when Python raises `KeyError`. -/
def get_instance {γ : Type} (d : Directory γ) (rid : Nat) : Option γ :=
  d rid

/-- `KorpCallbackPluginCaller.cleanup`:
`del self._instances[id(self._request)]`.  `del` raises `KeyError` (modelled
as `none`) when the key is absent, and otherwise removes the binding. -/
def cleanup {γ : Type} (d : Directory γ) (rid : Nat) : Option (Directory γ) :=
  match d rid with
  | some _ => some (fun k => if k = rid then none else d k)
  | none => none

/-- A minimal model of the Flask request object, with the one field the
sample applicability predicates consult. -/
structure FlaskRequest where
  endpoint : String

/-- The value of a non-raising callback invocation: its returned
`Option`-value. -/
def okVal {V E : Type} : Except E (Option V) → Option V
  | Except.ok o => o
  | Except.error _ => none

/-! ### Helper lemmas -/

theorem okVal_ok {V E : Type} (o : Option V) :
    okVal (E := E) (Except.ok o) = o := rfl

/-- Appending an entry for key `k` extends the entry list of `k` at its end
and leaves every other key's entry list unchanged. -/
theorem dictGet_dictAppend {γ Req : Type} (reg : Registry γ Req) (k : String)
    (e : CbEntry γ Req) (h : String) :
    dictGet (dictAppend reg k e) h =
      if k = h then dictGet reg h ++ [e] else dictGet reg h := by
  induction reg with
  | nil =>
    by_cases hk : k = h <;> simp [dictAppend, dictGet, hk]
  | cons p rest ih =>
    obtain ⟨k', es⟩ := p
    by_cases hk' : k' = k
    · subst hk'
      by_cases hk : k' = h
      · subst hk
        simp [dictAppend, dictGet]
      · simp [dictAppend, dictGet, hk]
    · by_cases hh : k' = h
      · subst hh
        have hk : ¬ k = k' := fun hc => hk' hc.symm
        simp [dictAppend, dictGet, hk', hk]
      · simp [dictAppend, dictGet, hk', hh, ih]

/-- Characterization of registration: defining a plugin class appends, to each
hook point `h`, exactly the qualifying attributes named `h`, in attribute
order, paired with the class's `applies_to`, after whatever was already
registered for `h`. -/
theorem registerClass_dictGet {γ Req : Type} (baseMethods : List String)
    (appliesTo : Req → Bool) (attrs : List (PyAttr γ)) (reg : Registry γ Req)
    (h : String) :
    dictGet (registerClass baseMethods appliesTo attrs reg) h =
      dictGet reg h ++
        (attrs.filter (fun a => qualifies baseMethods a && a.name == h)).map
          (fun a => (a.value, appliesTo)) := by
  induction attrs generalizing reg with
  | nil => simp [registerClass]
  | cons a rest ih =>
    have hfold : registerClass baseMethods appliesTo (a :: rest) reg =
        registerClass baseMethods appliesTo rest
          (if qualifies baseMethods a then
            dictAppend reg a.name (a.value, appliesTo)
          else reg) := by
      simp [registerClass, List.foldl_cons]
    rw [hfold]
    by_cases hq : qualifies baseMethods a
    · by_cases hname : a.name = h
      · simp only [hq, if_pos, ih, dictGet_dictAppend, hname, if_pos rfl,
          List.filter_cons, List.map_cons, hq, beq_iff_eq, hname,
          Bool.and_true, List.append_assoc, List.singleton_append]
        simp [hq]
      · have : (a.name == h) = false := by
          simp [hname]
        simp [hq, ih, dictGet_dictAppend, hname, List.filter_cons, this]
    · have : qualifies baseMethods a = false := by
        simpa using hq
      simp [this, ih, List.filter_cons]

/-- When no applicable callback raises, the collecting loop returns the
accumulated list extended, in order, with the non-`None` values of the
applicable callbacks. -/
theorem collectRun_ok {γ Req V E : Type}
    (invoke : γ → Req → Except E (Option V)) (req : Req) :
    ∀ (l : List (CbEntry γ Req)) (result : List V),
      (∀ e ∈ l, e.2 req = true → ∃ o, invoke e.1 req = Except.ok o) →
      collectRun invoke req l result =
        Except.ok (result ++
          l.filterMap (fun e =>
            if e.2 req then okVal (invoke e.1 req) else none)) := by
  intro l
  induction l with
  | nil => intro result _; simp [collectRun]
  | cons e rest ih =>
    intro result hall
    obtain ⟨cb, appliesTo⟩ := e
    by_cases hap : appliesTo req
    · obtain ⟨o, ho⟩ := hall (cb, appliesTo) (List.mem_cons_self _ _) hap
      have hrest : ∀ e ∈ rest, e.2 req = true →
          ∃ o, invoke e.1 req = Except.ok o :=
        fun e he => hall e (List.mem_cons_of_mem _ he)
      cases o with
      | none =>
        have heq := ih result hrest
        simp [collectRun, hap, ho, heq, List.filterMap_cons, okVal_ok]
      | some v =>
        have heq := ih (result ++ [v]) hrest
        simp [collectRun, hap, ho, heq, List.filterMap_cons, okVal_ok]
    · have hnap : appliesTo req = false := by simpa using hap
      have hrest : ∀ e ∈ rest, e.2 req = true →
          ∃ o, invoke e.1 req = Except.ok o :=
        fun e he => hall e (List.mem_cons_of_mem _ he)
      simp [collectRun, hnap, ih result hrest, List.filterMap_cons]

/-- The fire-and-forget loop skips an entry whose predicate is false. -/
theorem callRun_skip {γ Req V E : Type}
    (invoke : γ → Req → Except E (Option V)) (req : Req)
    (e : CbEntry γ Req) (he : e.2 req = false) :
    ∀ (l1 l2 : List (CbEntry γ Req)),
      callRun invoke req (l1 ++ e :: l2) = callRun invoke req (l1 ++ l2) := by
  intro l1
  induction l1 with
  | nil =>
    intro l2
    obtain ⟨cb, appliesTo⟩ := e
    have he' : appliesTo req = false := he
    simp only [List.nil_append]
    simp [callRun, he']
  | cons e1 rest ih =>
    intro l2
    obtain ⟨cb1, ap1⟩ := e1
    by_cases hap : ap1 req
    · cases hinv : invoke cb1 req with
      | error ex => simp [callRun, hap, hinv]
      | ok o => simp [callRun, hap, hinv, ih]
    · have : ap1 req = false := by simpa using hap
      simp [callRun, this, ih]

/-- The collecting loop skips an entry whose predicate is false. -/
theorem collectRun_skip {γ Req V E : Type}
    (invoke : γ → Req → Except E (Option V)) (req : Req)
    (e : CbEntry γ Req) (he : e.2 req = false) :
    ∀ (l1 l2 : List (CbEntry γ Req)) (result : List V),
      collectRun invoke req (l1 ++ e :: l2) result =
        collectRun invoke req (l1 ++ l2) result := by
  intro l1
  induction l1 with
  | nil =>
    intro l2 result
    obtain ⟨cb, appliesTo⟩ := e
    have he' : appliesTo req = false := he
    simp only [List.nil_append]
    simp [collectRun, he']
  | cons e1 rest ih =>
    intro l2 result
    obtain ⟨cb1, ap1⟩ := e1
    by_cases hap : ap1 req
    · cases hinv : invoke cb1 req with
      | error ex => simp [collectRun, hap, hinv]
      | ok o =>
        cases o with
        | none => simp [collectRun, hap, hinv, ih]
        | some v => simp [collectRun, hap, hinv, ih]
    · have : ap1 req = false := by simpa using hap
      simp [collectRun, this, ih]

/-- The chaining loop skips an entry whose predicate is false. -/
theorem chainRun_skip {γ Req V E : Type}
    (invoke : γ → V → Req → Except E (Option V)) (req : Req)
    (e : CbEntry γ Req) (he : e.2 req = false) :
    ∀ (l1 l2 : List (CbEntry γ Req)) (arg1 : V),
      chainRun invoke req arg1 (l1 ++ e :: l2) =
        chainRun invoke req arg1 (l1 ++ l2) := by
  intro l1
  induction l1 with
  | nil =>
    intro l2 arg1
    obtain ⟨cb, appliesTo⟩ := e
    have he' : appliesTo req = false := he
    simp only [List.nil_append]
    simp [chainRun, he']
  | cons e1 rest ih =>
    intro l2 arg1
    obtain ⟨cb1, ap1⟩ := e1
    by_cases hap : ap1 req
    · cases hinv : invoke cb1 arg1 req with
      | error ex => simp [chainRun, hap, hinv]
      | ok o =>
        cases o with
        | none => simp [chainRun, hap, hinv, ih]
        | some v => simp [chainRun, hap, hinv, ih]
    · have : ap1 req = false := by simpa using hap
      simp [chainRun, this, ih]

/-! ### Claims -/

/-- Claim C1: for a hook point `H`, if plugin classes `A`, `B`, `C` are
defined in that order and each registers a callback for `H`, then
`call_collect(H)` returns the callbacks' results in the order `A`, `B`, `C`,
regardless of what else the registry already contains for other hook
points. -/
theorem c1_collect_registration_order {γ Req V E : Type}
    (reg0 : Registry γ Req) (H : String) (base : List String)
    (gA gB gC : γ) (apA apB apC : Req → Bool) (req : Req)
    (invoke : γ → Req → Except E (Option V)) (vA vB vC : V)
    (hlow : startsLower H = true)
    (hbase : base.contains H = false)
    (h0 : dictGet reg0 H = [])
    (hapA : apA req = true) (hapB : apB req = true) (hapC : apC req = true)
    (hA : invoke gA req = Except.ok (some vA))
    (hB : invoke gB req = Except.ok (some vB))
    (hC : invoke gC req = Except.ok (some vC)) :
    (call_collect invoke
      (registerClass base apC [⟨H, true, gC⟩]
        (registerClass base apB [⟨H, true, gB⟩]
          (registerClass base apA [⟨H, true, gA⟩] reg0))) H req).1 =
      Except.ok [vA, vB, vC] := by
  have hmem : H ∉ base := by simpa using hbase
  have e1 : dictGet (registerClass base apA [⟨H, true, gA⟩] reg0) H =
      [(gA, apA)] := by
    rw [registerClass_dictGet]
    simp [h0, qualifies, hlow, hmem]
  have e2 : dictGet (registerClass base apB [⟨H, true, gB⟩]
      (registerClass base apA [⟨H, true, gA⟩] reg0)) H =
      [(gA, apA), (gB, apB)] := by
    rw [registerClass_dictGet, e1]
    simp [qualifies, hlow, hmem]
  have e3 : dictGet (registerClass base apC [⟨H, true, gC⟩]
      (registerClass base apB [⟨H, true, gB⟩]
        (registerClass base apA [⟨H, true, gA⟩] reg0))) H =
      [(gA, apA), (gB, apB), (gC, apC)] := by
    rw [registerClass_dictGet, e2]
    simp [qualifies, hlow, hmem]
  simp [call_collect, dictGetSt, e3, collectRun, hapA, hapB, hapC, hA, hB, hC]

def w1invoke : Nat → Unit → Except Unit (Option Nat) :=
  fun g _ => Except.ok (some g)

def w1reg0 : Registry Nat Unit := [("other_hook", [(99, fun _ => true)])]

theorem c1_collect_registration_order_witness :
    startsLower "hook_h" = true ∧
    List.contains ["applies_to"] "hook_h" = false ∧
    dictGet w1reg0 "hook_h" = [] ∧
    (call_collect w1invoke
      (registerClass ["applies_to"] (fun _ => true) [⟨"hook_h", true, 3⟩]
        (registerClass ["applies_to"] (fun _ => true) [⟨"hook_h", true, 2⟩]
          (registerClass ["applies_to"] (fun _ => true) [⟨"hook_h", true, 1⟩]
            w1reg0))) "hook_h" ()).1 = Except.ok [1, 2, 3] :=
  ⟨by decide, by decide, rfl,
    c1_collect_registration_order w1reg0 "hook_h" ["applies_to"] 1 2 3
      (fun _ => true) (fun _ => true) (fun _ => true) () w1invoke 1 2 3
      (by decide) (by decide) rfl rfl rfl rfl rfl rfl rfl⟩

/-- Claim C2: `call_chain(hook, 5)` with three applicable callbacks that
return `7`, `None` and `10` on the threaded value yields `10`: a `None`
return leaves the running value from the previous callback intact (the third
callback is invoked at `7`, not at the original `5`), and the final running
value is returned. -/
theorem c2_chain_null_passthrough {γ Req E : Type}
    (invokeC : γ → Nat → Req → Except E (Option Nat))
    (reg : Registry γ Req) (hook : String) (req : Req)
    (g1 g2 g3 : γ) (p1 p2 p3 : Req → Bool)
    (hreg : dictGet reg hook = [(g1, p1), (g2, p2), (g3, p3)])
    (hp1 : p1 req = true) (hp2 : p2 req = true) (hp3 : p3 req = true)
    (h1 : invokeC g1 5 req = Except.ok (some 7))
    (h2 : invokeC g2 7 req = Except.ok none)
    (h3 : invokeC g3 7 req = Except.ok (some 10)) :
    (call_chain invokeC reg hook req 5).1 = Except.ok 10 := by
  simp [call_chain, dictGetSt, hreg, chainRun, hp1, hp2, hp3, h1, h2, h3]

def w2invoke : Nat → Nat → Unit → Except Unit (Option Nat) :=
  fun g _ _ =>
    if g = 1 then Except.ok (some 7)
    else if g = 2 then Except.ok none
    else Except.ok (some 10)

def w2reg : Registry Nat Unit :=
  [("x", [(1, fun _ => true), (2, fun _ => true), (3, fun _ => true)])]

theorem c2_chain_null_passthrough_witness :
    dictGet w2reg "x" =
      [(1, fun _ => true), (2, fun _ => true), (3, fun _ => true)] ∧
    w2invoke 1 5 () = Except.ok (some 7) ∧
    w2invoke 2 7 () = Except.ok none ∧
    w2invoke 3 7 () = Except.ok (some 10) ∧
    (call_chain w2invoke w2reg "x" () 5).1 = Except.ok 10 :=
  ⟨rfl, rfl, rfl, rfl,
    c2_chain_null_passthrough w2invoke w2reg "x" () 1 2 3
      (fun _ => true) (fun _ => true) (fun _ => true)
      rfl rfl rfl rfl rfl rfl rfl⟩

/-- Claim C3: `call_collect` invokes each applicable registered callback in
order and, provided none raises, returns exactly the list of their
non-`None` return values in callback order, omitting `None` returns; in
particular it returns `[]` when no callback fired or all returned `None`. -/
theorem c3_collect_null_filtering {γ Req V E : Type}
    (invoke : γ → Req → Except E (Option V)) (reg : Registry γ Req)
    (hook : String) (req : Req)
    (hok : ∀ e ∈ dictGet reg hook, e.2 req = true →
      ∃ o, invoke e.1 req = Except.ok o) :
    (call_collect invoke reg hook req).1 =
      Except.ok ((dictGet reg hook).filterMap
        (fun e => if e.2 req then okVal (invoke e.1 req) else none)) := by
  have h := collectRun_ok invoke req (dictGet reg hook) [] hok
  simpa [call_collect, dictGetSt] using h

def w3invoke : Nat → Unit → Except Unit (Option Nat) :=
  fun g _ =>
    if g = 1 then Except.ok (some 1)
    else if g = 2 then Except.ok none
    else Except.ok (some 2)

def w3reg : Registry Nat Unit :=
  [("y", [(1, fun _ => true), (2, fun _ => true), (3, fun _ => true)])]

theorem c3_collect_null_filtering_witness :
    (∀ e ∈ dictGet w3reg "y", e.2 () = true →
      ∃ o, w3invoke e.1 () = Except.ok o) ∧
    (call_collect w3invoke w3reg "y" ()).1 = Except.ok [1, 2] := by
  have hok : ∀ e ∈ dictGet w3reg "y", e.2 () = true →
      ∃ o, w3invoke e.1 () = Except.ok o := by
    intro e he _
    simp [w3reg, dictGet] at he
    rcases he with h | h | h <;> subst h <;> exact ⟨_, rfl⟩
  refine ⟨hok, ?_⟩
  rw [c3_collect_null_filtering w3invoke w3reg "y" () hok]
  rfl

/-- Claim C7: a hook-point name with zero registered callbacks makes
`call_collect` return `[]` without raising, for any request state. -/
theorem c7_unregistered_hook_noop {γ Req V E : Type}
    (invoke : γ → Req → Except E (Option V)) (reg : Registry γ Req)
    (hook : String) (req : Req)
    (hreg : dictGet reg hook = []) :
    (call_collect invoke reg hook req).1 = Except.ok [] := by
  simp [call_collect, dictGetSt, hreg, collectRun]

theorem c7_unregistered_hook_noop_witness :
    dictGet w3reg "nonexistent_hook" = [] ∧
    (call_collect w3invoke w3reg "nonexistent_hook" ()).1 = Except.ok [] :=
  ⟨rfl, c7_unregistered_hook_noop w3invoke w3reg "nonexistent_hook" () rfl⟩

/-- Claim C4: every dispatch strategy skips a registered entry whose
`applies_to` predicate is false for the caller's request (first conjunct);
in particular, with two plugins registered for hook point `H`, one always
applicable and one applicable only when `request.endpoint == "info"`,
`call(H)` on a request with endpoint `"other"` behaves exactly as if only the
first plugin's callback were registered, i.e. it invokes only the first
(second conjunct). -/
theorem c4_predicate_filtering :
    (∀ (γ Req V E : Type) (invoke : γ → Req → Except E (Option V))
        (invokeC : γ → V → Req → Except E (Option V)) (req : Req)
        (e : CbEntry γ Req) (l1 l2 : List (CbEntry γ Req)) (arg1 : V)
        (result : List V),
      e.2 req = false →
        callRun invoke req (l1 ++ e :: l2) = callRun invoke req (l1 ++ l2) ∧
        collectRun invoke req (l1 ++ e :: l2) result =
          collectRun invoke req (l1 ++ l2) result ∧
        chainRun invokeC req arg1 (l1 ++ e :: l2) =
          chainRun invokeC req arg1 (l1 ++ l2)) ∧
    (∀ (γ V E : Type) (invoke : γ → FlaskRequest → Except E (Option V))
        (g1 g2 : γ) (req : FlaskRequest),
      req.endpoint = "other" →
        (call invoke
          [("H", [(g1, fun _ => true),
                  (g2, fun r => r.endpoint == "info")])] "H" req).1 =
          callRun invoke req [(g1, fun _ => true)]) := by
  constructor
  · intro γ Req V E invoke invokeC req e l1 l2 arg1 result he
    exact ⟨callRun_skip invoke req e he l1 l2,
      collectRun_skip invoke req e he l1 l2 result,
      chainRun_skip invokeC req e he l1 l2 arg1⟩
  · intro γ V E invoke g1 g2 req hreq
    have hp2 : ((g2, fun (r : FlaskRequest) => r.endpoint == "info") :
        CbEntry γ FlaskRequest).2 req = false := by
      simp [hreq]
    have hskip := callRun_skip invoke req _ hp2 [(g1, fun _ => true)] []
    simpa [call, dictGetSt, dictGet] using hskip

theorem c4_predicate_filtering_witness :
    ({ endpoint := "other" } : FlaskRequest).endpoint = "other" ∧
    (call (fun (g : Nat) (_ : FlaskRequest) => Except.ok (ε := Unit) (some g))
      [("H", [(1, fun _ => true), (2, fun r => r.endpoint == "info")])] "H"
      { endpoint := "other" }).1 =
      callRun (fun (g : Nat) (_ : FlaskRequest) =>
        Except.ok (ε := Unit) (some g))
        { endpoint := "other" } [(1, fun _ => true)] :=
  ⟨rfl, c4_predicate_filtering.2 Nat Nat Unit
    (fun g _ => Except.ok (some g)) 1 2 { endpoint := "other" } rfl⟩

/-- Claim C5: for a hook point with three registered applicable callbacks,
if the second raises, the third is never invoked (the result does not depend
on `g3` or `p3`, which are arbitrary here) and the exception propagates out
of `call`, `call_collect` and `call_chain` alike. -/
theorem c5_fail_fast {γ Req V E : Type}
    (invoke : γ → Req → Except E (Option V))
    (invokeC : γ → V → Req → Except E (Option V))
    (reg : Registry γ Req) (hook : String) (req : Req)
    (g1 g2 g3 : γ) (p1 p2 p3 : Req → Bool) (ex : E)
    (r1 o1 : Option V) (arg1 : V)
    (hreg : dictGet reg hook = [(g1, p1), (g2, p2), (g3, p3)])
    (hp1 : p1 req = true) (hp2 : p2 req = true) (hp3 : p3 req = true)
    (h1 : invoke g1 req = Except.ok r1)
    (h2 : invoke g2 req = Except.error ex)
    (hc1 : invokeC g1 arg1 req = Except.ok o1)
    (hc2 : invokeC g2 (o1.getD arg1) req = Except.error ex) :
    (call invoke reg hook req).1 = Except.error ex ∧
    (call_collect invoke reg hook req).1 = Except.error ex ∧
    (call_chain invokeC reg hook req arg1).1 = Except.error ex := by
  refine ⟨?_, ?_, ?_⟩
  · simp [call, dictGetSt, hreg, callRun, hp1, hp2, h1, h2]
  · cases r1 with
    | none => simp [call_collect, dictGetSt, hreg, collectRun, hp1, hp2, h1, h2]
    | some v =>
      simp [call_collect, dictGetSt, hreg, collectRun, hp1, hp2, h1, h2]
  · cases o1 with
    | none =>
      have hc2' : invokeC g2 arg1 req = Except.error ex := by simpa using hc2
      simp [call_chain, dictGetSt, hreg, chainRun, hp1, hp2, hc1, hc2']
    | some v =>
      have hc2' : invokeC g2 v req = Except.error ex := by simpa using hc2
      simp [call_chain, dictGetSt, hreg, chainRun, hp1, hp2, hc1, hc2']

def w5invoke : Nat → Unit → Except Nat (Option Nat) :=
  fun g _ =>
    if g = 1 then Except.ok (some 0)
    else if g = 2 then Except.error 42
    else Except.ok (some 9)

def w5invokeC : Nat → Nat → Unit → Except Nat (Option Nat) :=
  fun g _ _ =>
    if g = 1 then Except.ok (some 6)
    else if g = 2 then Except.error 42
    else Except.ok (some 9)

def w5reg : Registry Nat Unit :=
  [("h", [(1, fun _ => true), (2, fun _ => true), (3, fun _ => true)])]

theorem c5_fail_fast_witness :
    dictGet w5reg "h" =
      [(1, fun _ => true), (2, fun _ => true), (3, fun _ => true)] ∧
    w5invoke 1 () = Except.ok (some 0) ∧
    w5invoke 2 () = Except.error 42 ∧
    w5invokeC 1 5 () = Except.ok (some 6) ∧
    w5invokeC 2 ((some 6).getD 5) () = Except.error 42 ∧
    ((call w5invoke w5reg "h" ()).1 = Except.error 42 ∧
      (call_collect w5invoke w5reg "h" ()).1 = Except.error 42 ∧
      (call_chain w5invokeC w5reg "h" () 5).1 = Except.error 42) :=
  ⟨rfl, rfl, rfl, rfl, rfl,
    c5_fail_fast w5invoke w5invokeC w5reg "h" () 1 2 3
      (fun _ => true) (fun _ => true) (fun _ => true) 42 (some 0) (some 6) 5
      rfl rfl rfl rfl rfl rfl rfl rfl⟩

/-- Claim C6: after constructing a caller for request identity `rid` and
before cleanup, `get_instance` returns exactly that caller (and, the model
being a function of the directory state, every query returns the same
instance); `cleanup` then succeeds and afterwards `get_instance` yields a
lookup failure (`none`, modelling `KeyError`). -/
theorem c6_caller_directory_lifecycle :
    ∀ (γ : Type) (d : Directory γ) (rid : Nat) (c : γ),
      get_instance (caller_init d rid c) rid = some c ∧
      ∃ d2, cleanup (caller_init d rid c) rid = some d2 ∧
        get_instance d2 rid = none := by
  intro γ d rid c
  constructor
  · simp [get_instance, caller_init]
  · refine ⟨fun k => if k = rid then none else caller_init d rid c k, ?_, ?_⟩
    · simp [cleanup, caller_init]
    · simp [get_instance]

/-- Claim C8: constructing a second caller for the same request identity
raises no error (the model operation is total) and overwrites the directory
entry: afterwards `get_instance` returns the second caller, and the
directory state is exactly as if only the second caller had registered, so
the first is no longer reachable through it. -/
theorem c8_second_caller_overwrites :
    ∀ (γ : Type) (d : Directory γ) (rid : Nat) (c1 c2 : γ),
      get_instance (caller_init (caller_init d rid c1) rid c2) rid = some c2 ∧
      caller_init (caller_init d rid c1) rid c2 = caller_init d rid c2 := by
  intro γ d rid c1 c2
  constructor
  · simp [get_instance, caller_init]
  · funext k
    by_cases hk : k = rid <;> simp [caller_init, hk]

/-- Claim C9: when a plugin subclass is defined, an attribute of its
singleton instance is registered for the hook point of its name if and only
if the name starts with a lowercase letter, the attribute is callable, and
the name is not among the attributes of the base class's own namespace; each
newly registered entry is the pair of the attribute value (the bound method)
and the subclass's `applies_to`. -/
theorem c9_registration_condition :
    ∀ (γ Req : Type) (baseMethods : List String) (appliesTo : Req → Bool)
      (attrs : List (PyAttr γ)) (reg : Registry γ Req) (h : String)
      (e : CbEntry γ Req),
      e ∈ dictGet (registerClass baseMethods appliesTo attrs reg) h ↔
        e ∈ dictGet reg h ∨
          ∃ a ∈ attrs, startsLower a.name = true ∧ a.isCallable = true ∧
            baseMethods.contains a.name = false ∧ a.name = h ∧
            e = (a.value, appliesTo) := by
  intro γ Req base ap attrs reg h e
  rw [registerClass_dictGet, List.mem_append]
  simp only [List.mem_map, List.mem_filter, qualifies, Bool.and_eq_true,
    Bool.not_eq_true', beq_iff_eq, List.elem_eq_mem, decide_eq_false_iff_not,
    decide_eq_true_eq]
  constructor
  · rintro (hl | ⟨a, ⟨ha, ⟨⟨hs, hc⟩, hnb⟩, hn⟩, hv⟩)
    · exact Or.inl hl
    · exact Or.inr ⟨a, ha, hs, hc, by simpa using hnb, hn, hv.symm⟩
  · rintro (hl | ⟨a, ha, hs, hc, hnb, hn, hv⟩)
    · exact Or.inl hl
    · exact Or.inr ⟨a, ⟨ha, ⟨⟨hs, hc⟩, by simpa using hnb⟩, hn⟩, hv.symm⟩

/-- Claim C10: dispatching any hook-point name (registered or not) through
any of the three strategies leaves the callback registry unchanged: the
lookup is a defaulting `dict.get`, so no entry is created for an unknown
name, and the registry (its hook points and their callback lists) after the
dispatch is the registry before. -/
theorem c10_dispatch_preserves_registry :
    ∀ (γ Req V E : Type) (invoke : γ → Req → Except E (Option V))
      (invokeC : γ → V → Req → Except E (Option V))
      (reg : Registry γ Req) (hook : String) (req : Req) (arg1 : V),
      (call invoke reg hook req).2 = reg ∧
      (call_collect invoke reg hook req).2 = reg ∧
      (call_chain invokeC reg hook req arg1).2 = reg := by
  intro γ Req V E invoke invokeC reg hook req arg1
  exact ⟨rfl, rfl, rfl⟩

end Korp
